import Mathlib

/-!
# ShaderTypes.h: slot enumerations and constant-buffer structs

A shallow embedding of `ExploringMetal/ShaderTypes.h`, the header shared between the
Metal shaders and the host application.  The header holds only declarations: five
`NS_ENUM` enumerations and three structs of matrices.  The embedding keeps the
declarations as data (names, explicit enumerator values, field order and field types)
and interprets them with

* the preprocessor branch on `__METAL_VERSION__` (lines 15-20), which picks the integer
  type behind `NSInteger`;
* the C struct layout rule over the sizes and alignments of the `simd` matrix types;
* a byte buffer shared by the host, which writes, and the device, which reads.
-/

namespace ShaderTypes

/-! ## Toolchains and the preprocessor branch -/

/-- Pointer model of the host compilation: Foundation declares `NSInteger` as `long`
under LP64 and as `int` otherwise. -/
inductive HostArch where
  | ilp32
  | lp64
  deriving DecidableEq, Repr

/-- The two compilations of the header: the host one (`__METAL_VERSION__` undefined,
Foundation imported) and the device one (`__METAL_VERSION__` defined). -/
inductive Toolchain where
  | host (arch : HostArch)
  | device
  deriving DecidableEq, Repr

/-- Modelled from the spec: the width in bits of Foundation's `NSInteger`, which the host
branch takes from `Foundation.h` (not part of the header): 64 under LP64, 32 otherwise. -/
def foundationNSIntegerBits : HostArch → Nat
  | .ilp32 => 32
  | .lp64 => 64

/-- Width in bits of the type `NSInteger` names in each compilation: line 17 defines it
as `metal::int32_t` when `__METAL_VERSION__` is defined, otherwise it is Foundation's. -/
def NSIntegerBits : Toolchain → Nat
  | .device => 32
  | .host arch => foundationNSIntegerBits arch

/-- Conversion of an integer to a signed two's complement type of `bits` bits. -/
def toSigned (bits : Nat) (v : Int) : Int :=
  (v + 2 ^ (bits - 1)) % 2 ^ bits - 2 ^ (bits - 1)

/-! ## Enumerations -/

/-- One enumerator of an `NS_ENUM`: its name and the value of its explicit initialiser. -/
structure Enumerator where
  name : String
  value : Int
  deriving DecidableEq, Repr

/-- An `NS_ENUM(NSInteger, name) { ... }` declaration. -/
structure EnumDecl where
  name : String
  members : List Enumerator
  deriving DecidableEq, Repr

/-- Lines 24-28. -/
def BufferIndex : EnumDecl :=
  ⟨"BufferIndex",
    [⟨"BufferIndexMeshPositions", 0⟩,
     ⟨"BufferIndexLocalUniforms", 1⟩,
     ⟨"BufferIndexPerFrameConstants", 2⟩]⟩

/-- Lines 30-34. -/
def VertexAttributeVNT : EnumDecl :=
  ⟨"VertexAttributeVNT",
    [⟨"VertexAttributeVNTPosition", 0⟩,
     ⟨"VertexAttributeVNTNormal", 1⟩,
     ⟨"VertexAttributeVNTTexcoord", 2⟩]⟩

/-- Lines 36-39. -/
def VertexAttributeVT : EnumDecl :=
  ⟨"VertexAttributeVT",
    [⟨"VertexAttributeVTPosition", 0⟩,
     ⟨"VertexAttributeVTTexcoord", 1⟩]⟩

/-- Lines 41-44. -/
def VertexAttributeVN : EnumDecl :=
  ⟨"VertexAttributeVN",
    [⟨"VertexAttributeVNPosition", 0⟩,
     ⟨"VertexAttributeVNNormal", 1⟩]⟩

/-- Lines 46-48. -/
def TextureIndex : EnumDecl :=
  ⟨"TextureIndex",
    [⟨"TextureIndexColor", 0⟩]⟩

/-- The five enumerations of the header, in declaration order. -/
def allEnums : List EnumDecl :=
  [BufferIndex, VertexAttributeVNT, VertexAttributeVT, VertexAttributeVN, TextureIndex]

/-- The three vertex-attribute variants. -/
def vertexAttributeEnums : List EnumDecl :=
  [VertexAttributeVNT, VertexAttributeVT, VertexAttributeVN]

/-- Value of an enumerator as compiled by a toolchain: the initialiser converted to the
underlying type `NSInteger` of that compilation. -/
def enumValue (tc : Toolchain) (e : Enumerator) : Int :=
  toSigned (NSIntegerBits tc) e.value

/-- Values of the members of an enumeration under a toolchain, in declaration order. -/
def EnumDecl.values (tc : Toolchain) (E : EnumDecl) : List Int :=
  E.members.map (enumValue tc)

/-- Value of the constant called `n` in enumeration `E` under a toolchain. -/
def EnumDecl.constant (tc : Toolchain) (E : EnumDecl) (n : String) : Option Int :=
  (E.members.find? (fun e => e.name == n)).map (enumValue tc)

/-- The attribute kind an enumerator of a vertex-attribute variant stands for: its name
without the name of the enumeration in front (`VertexAttributeVNTNormal` gives `Normal`). -/
def attributeKind (E : EnumDecl) (e : Enumerator) : String :=
  String.mk (e.name.data.drop E.name.length)

/-- Slot of attribute kind `k` in a vertex-attribute variant, when the variant has it. -/
def EnumDecl.slotOf (tc : Toolchain) (E : EnumDecl) (k : String) : Option Int :=
  (E.members.find? (fun e => attributeKind E e == k)).map (enumValue tc)

/-! ## Matrix types and their layout -/

/-- The two matrix types of `simd/simd.h` the structs are made of. -/
inductive MatrixType where
  | matrix_float4x4
  | matrix_float3x3
  deriving DecidableEq, Repr

/-- Number of column vectors of a matrix type. -/
def MatrixType.columns : MatrixType → Nat
  | .matrix_float4x4 => 4
  | .matrix_float3x3 => 3

/-- Number of 32-bit floats in each column vector. -/
def MatrixType.rows : MatrixType → Nat
  | .matrix_float4x4 => 4
  | .matrix_float3x3 => 3

/-- Bytes of one 32-bit float. -/
def floatBytes : Nat := 4

/-- Modelled from the spec: the bytes one column vector of a matrix takes, which comes
from `simd/simd.h` (host) and the Metal standard library (device), neither part of the
header.  A `float4` and a `float3` column both take 16 bytes, so that `matrix_float4x4`
is 64 bytes and `matrix_float3x3` is 48 bytes in both compilations. -/
def columnBytes : Toolchain → MatrixType → Nat
  | .host _, _ => 16
  | .device, _ => 16

/-- Size in bytes of a matrix type: an array of its column vectors. -/
def sizeOf (tc : Toolchain) (t : MatrixType) : Nat :=
  t.columns * columnBytes tc t

/-- Modelled from the spec: the alignment of the matrix types, from the same absent
headers: matrices are aligned to 16-byte vector boundaries in both compilations. -/
def alignOf : Toolchain → MatrixType → Nat
  | .host _, _ => 16
  | .device, _ => 16

/-! ## Structs -/

/-- One field of a struct: its name and its type. -/
structure Field where
  name : String
  type : MatrixType
  deriving DecidableEq, Repr

/-- A `typedef struct { ... } name;` declaration: the fields in declaration order. -/
structure StructDecl where
  name : String
  fields : List Field
  deriving DecidableEq, Repr

/-- Lines 50-56. -/
def ObjectTransforms : StructDecl :=
  ⟨"ObjectTransforms",
    [⟨"modelViewMatrix", .matrix_float4x4⟩,
     ⟨"normalMatrix", .matrix_float3x3⟩,
     ⟨"pad1", .matrix_float4x4⟩,
     ⟨"pad2", .matrix_float4x4⟩,
     ⟨"pad3", .matrix_float4x4⟩]⟩

/-- Lines 58-60. -/
def SkyboxTransforms : StructDecl :=
  ⟨"SkyboxTransforms",
    [⟨"modelViewProjectionMatrix", .matrix_float4x4⟩]⟩

/-- Lines 62-67. -/
def PerFrameConstants : StructDecl :=
  ⟨"PerFrameConstants",
    [⟨"projectionMatrix", .matrix_float4x4⟩,
     ⟨"pad1", .matrix_float4x4⟩,
     ⟨"pad2", .matrix_float4x4⟩,
     ⟨"pad3", .matrix_float4x4⟩]⟩

/-- The three structs of the header, in declaration order. -/
def allStructs : List StructDecl :=
  [ObjectTransforms, SkyboxTransforms, PerFrameConstants]

/-- The least multiple of `a` that is not below `pos`. -/
def alignUp (pos a : Nat) : Nat :=
  (pos + a - 1) / a * a

/-- Offsets the C layout rule gives the fields `fs` when the first free byte is `pos`:
each field goes to the next multiple of its alignment, the following one after it. -/
def layoutFrom (tc : Toolchain) : Nat → List Field → List Nat
  | _, [] => []
  | pos, f :: fs =>
    alignUp pos (alignOf tc f.type) ::
      layoutFrom tc (alignUp pos (alignOf tc f.type) + sizeOf tc f.type) fs

/-- First free byte after the fields `fs` have been laid out from `pos`. -/
def endFrom (tc : Toolchain) : Nat → List Field → Nat
  | pos, [] => pos
  | pos, f :: fs => endFrom tc (alignUp pos (alignOf tc f.type) + sizeOf tc f.type) fs

/-- Byte offset of every field of a struct, in declaration order. -/
def StructDecl.offsets (tc : Toolchain) (S : StructDecl) : List Nat :=
  layoutFrom tc 0 S.fields

/-- Alignment of a struct: the largest alignment among its fields. -/
def StructDecl.alignment (tc : Toolchain) (S : StructDecl) : Nat :=
  S.fields.foldl (fun a f => max a (alignOf tc f.type)) 1

/-- Value of `sizeof` for a struct: the end of the last field, rounded up to the
alignment of the struct. -/
def StructDecl.byteSize (tc : Toolchain) (S : StructDecl) : Nat :=
  alignUp (endFrom tc 0 S.fields) (S.alignment tc)

/-- Plain sum of the sizes of the fields of a struct. -/
def StructDecl.fieldSizeSum (tc : Toolchain) (S : StructDecl) : Nat :=
  (S.fields.map (fun f => sizeOf tc f.type)).sum

/-- Value of `offsetof` for the field called `n`, when the struct has such a field. -/
def StructDecl.offsetOf (tc : Toolchain) (S : StructDecl) (n : String) : Option Nat :=
  (S.offsets tc)[S.fields.findIdx (fun f => f.name == n)]?

/-- Offsets the fields `fs` would have from `pos` with no padding at all: each field
right after the one before it. -/
def packedFrom (tc : Toolchain) : Nat → List Field → List Nat
  | _, [] => []
  | pos, f :: fs => pos :: packedFrom tc (pos + sizeOf tc f.type) fs

/-! ## A shared byte buffer -/

/-- A buffer of bytes, each a number below 256, addressed from 0. -/
abbrev Buffer := List Nat

/-- Store `bs` at address `addr`; fails when the bytes do not fit in the buffer. -/
def writeBytes (buf : Buffer) (addr : Nat) (bs : List Nat) : Option Buffer :=
  if addr + bs.length ≤ buf.length then
    some (buf.take addr ++ bs ++ buf.drop (addr + bs.length))
  else none

/-- Load `len` bytes from address `addr`; fails when they are not all in the buffer. -/
def readBytes (buf : Buffer) (addr len : Nat) : Option (List Nat) :=
  if addr + len ≤ buf.length then some ((buf.drop addr).take len) else none

/-- The four bytes of a 32-bit pattern, least significant first. -/
def encodeWord (w : Nat) : List Nat :=
  [w % 256, w / 256 % 256, w / 65536 % 256, w / 16777216 % 256]

/-- The 32-bit pattern four bytes stand for, least significant first. -/
def decodeWord : List Nat → Nat
  | [b0, b1, b2, b3] => b0 + 256 * b1 + 65536 * b2 + 16777216 * b3
  | _ => 0

/-- Bytes of a sequence of 32-bit patterns. -/
def encodeWords : List Nat → List Nat
  | [] => []
  | w :: ws => encodeWord w ++ encodeWords ws

/-- The first `n` 32-bit patterns held in a sequence of bytes. -/
def decodeWords : Nat → List Nat → List Nat
  | 0, _ => []
  | n + 1, bs => decodeWord (bs.take floatBytes) :: decodeWords n (bs.drop floatBytes)

/-- Bytes of one column vector: its floats, then zero bytes up to the column size. -/
def encodeColumn (tc : Toolchain) (t : MatrixType) (col : List Nat) : List Nat :=
  encodeWords col ++ List.replicate (columnBytes tc t - floatBytes * col.length) 0

/-- Object representation of a matrix, given as the list of its columns, each the list
of the bit patterns of its floats. -/
def encodeMatrix (tc : Toolchain) (t : MatrixType) : List (List Nat) → List Nat
  | [] => []
  | col :: cols => encodeColumn tc t col ++ encodeMatrix tc t cols

/-- The first `c` columns of a matrix of type `t` held in a sequence of bytes. -/
def decodeMatrix (tc : Toolchain) (t : MatrixType) : Nat → List Nat → List (List Nat)
  | 0, _ => []
  | c + 1, bs =>
    decodeWords t.rows (bs.take (columnBytes tc t)) ::
      decodeMatrix tc t c (bs.drop (columnBytes tc t))

/-- A list of columns is a value of matrix type `t`: it has the columns and rows of the
type and every entry is a 32-bit pattern. -/
def IsValue (t : MatrixType) (v : List (List Nat)) : Prop :=
  v.length = t.columns ∧ ∀ col ∈ v, col.length = t.rows ∧ ∀ w ∈ col, w < 4294967296

instance (t : MatrixType) (v : List (List Nat)) : Decidable (IsValue t v) := by
  unfold IsValue; infer_instance

/-- Store matrix `v` into field number `i` of the instance of `S` at address `base`,
through the layout of toolchain `tc`. -/
def writeField (tc : Toolchain) (S : StructDecl) (i : Nat) (v : List (List Nat))
    (buf : Buffer) (base : Nat) : Option Buffer :=
  match S.fields[i]?, (S.offsets tc)[i]? with
  | some f, some off => writeBytes buf (base + off) (encodeMatrix tc f.type v)
  | _, _ => none

/-- The bytes of field number `i` of the instance of `S` at address `base`, through the
layout of toolchain `tc`. -/
def readFieldBytes (tc : Toolchain) (S : StructDecl) (i : Nat) (buf : Buffer)
    (base : Nat) : Option (List Nat) :=
  match S.fields[i]?, (S.offsets tc)[i]? with
  | some f, some off => readBytes buf (base + off) (sizeOf tc f.type)
  | _, _ => none

/-- Load the matrix in field number `i` of the instance of `S` at address `base`,
through the layout of toolchain `tc`. -/
def readField (tc : Toolchain) (S : StructDecl) (i : Nat) (buf : Buffer)
    (base : Nat) : Option (List (List Nat)) :=
  match S.fields[i]? with
  | some f => (readFieldBytes tc S i buf base).map (decodeMatrix tc f.type f.type.columns)
  | none => none

/-- Bit pattern of the float 1.0. -/
def oneBits : Nat := 1065353216

/-- Bit pattern of the float -1.0. -/
def minusOneBits : Nat := 3212836864

/-- A known projection matrix, as columns of float bit patterns: the diagonal matrix
with entries 1.0, 1.0, -1.0, 1.0 (0.0 has the all-zero pattern). -/
def knownProjection : List (List Nat) :=
  [[oneBits, 0, 0, 0], [0, oneBits, 0, 0], [0, 0, minusOneBits, 0], [0, 0, 0, oneBits]]

theorem writeBytes_length {buf : Buffer} {addr : Nat} {bs : List Nat} {buf' : Buffer}
    (h : writeBytes buf addr bs = some buf') : buf'.length = buf.length := by
  unfold writeBytes at h
  split at h
  · cases h
    simp
    omega
  · cases h

theorem readBytes_writeBytes_same (buf : Buffer) (addr : Nat) (bs : List Nat)
    (h : addr + bs.length ≤ buf.length) :
    ∃ buf', writeBytes buf addr bs = some buf' ∧ readBytes buf' addr bs.length = some bs := by
  refine ⟨buf.take addr ++ bs ++ buf.drop (addr + bs.length), by simp [writeBytes, h], ?_⟩
  unfold readBytes
  have hl : (buf.take addr).length = addr := by simp; omega
  rw [if_pos (by simp; omega)]
  congr 1
  rw [List.append_assoc, List.drop_append_eq_append_drop, hl]
  simp [List.drop_eq_nil_of_le, hl]

theorem readBytes_writeBytes_disjoint (buf : Buffer) (addr : Nat) (bs : List Nat)
    (buf' : Buffer) (a len : Nat) (h : writeBytes buf addr bs = some buf')
    (hd : a + len ≤ addr ∨ addr + bs.length ≤ a) :
    readBytes buf' a len = readBytes buf a len := by
  have hlen := writeBytes_length h
  unfold writeBytes at h
  split at h
  next hfit =>
    cases h
    unfold readBytes
    rw [hlen]
    split
    next hr =>
      congr 1
      apply List.ext_getElem?
      intro i
      simp only [List.getElem?_take, List.getElem?_drop]
      split
      next hi =>
        have hl : (buf.take addr).length = addr := by simp; omega
        rcases hd with hd | hd
        · rw [List.append_assoc, List.getElem?_append_left (by omega),
            List.getElem?_take_of_lt (by omega)]
        · rw [List.getElem?_append_right (by simp; omega), List.getElem?_drop]
          congr 1
          simp
          omega
      · rfl
    · rfl
  · cases h

theorem decodeWord_encodeWord (w : Nat) (h : w < 4294967296) :
    decodeWord (encodeWord w) = w := by
  simp only [encodeWord, decodeWord]
  omega

theorem encodeWords_length (ws : List Nat) :
    (encodeWords ws).length = floatBytes * ws.length := by
  induction ws with
  | nil => rfl
  | cons w ws ih => simp [encodeWords, encodeWord, ih, floatBytes]; omega

theorem decodeWords_encodeWords (ws : List Nat) (rest : List Nat)
    (h : ∀ w ∈ ws, w < 4294967296) :
    decodeWords ws.length (encodeWords ws ++ rest) = ws := by
  induction ws with
  | nil => rfl
  | cons w ws ih =>
    have hw := decodeWord_encodeWord w (h w (by simp))
    have ih' := ih (fun x hx => h x (by simp [hx]))
    simp only [encodeWords, List.length_cons, decodeWords, floatBytes]
    rw [List.append_assoc]
    have h4 : (encodeWord w).length = 4 := rfl
    rw [List.take_left' h4, List.drop_left' h4, hw, ih']

theorem columnBytes_eq (tc : Toolchain) (t : MatrixType) : columnBytes tc t = 16 := by
  cases tc <;> rfl

theorem rows_le (t : MatrixType) : floatBytes * t.rows ≤ 16 := by
  cases t <;> decide

theorem encodeColumn_length (tc : Toolchain) (t : MatrixType) (col : List Nat)
    (h : col.length = t.rows) : (encodeColumn tc t col).length = 16 := by
  have := rows_le t
  simp [encodeColumn, encodeWords_length, columnBytes_eq, h]
  omega

theorem encodeMatrix_length (tc : Toolchain) (t : MatrixType) (v : List (List Nat))
    (h : ∀ col ∈ v, col.length = t.rows) :
    (encodeMatrix tc t v).length = v.length * 16 := by
  induction v with
  | nil => rfl
  | cons col cols ih =>
    simp only [encodeMatrix, List.length_append, List.length_cons]
    rw [encodeColumn_length tc t col (h col (by simp)), ih (fun c hc => h c (by simp [hc]))]
    omega

theorem decodeMatrix_encodeMatrix (tcW tcR : Toolchain) (t : MatrixType)
    (v : List (List Nat)) (rest : List Nat)
    (h : ∀ col ∈ v, col.length = t.rows ∧ ∀ w ∈ col, w < 4294967296) :
    decodeMatrix tcR t v.length (encodeMatrix tcW t v ++ rest) = v := by
  induction v with
  | nil => rfl
  | cons col cols ih =>
    obtain ⟨hr, hw⟩ := h col (by simp)
    have ih' := ih (fun c hc => h c (by simp [hc]))
    have hc : (encodeColumn tcW t col).length = 16 := encodeColumn_length tcW t col hr
    simp only [encodeMatrix, List.length_cons, decodeMatrix, columnBytes_eq]
    rw [List.append_assoc, List.take_left' hc, List.drop_left' hc, ih']
    congr 1
    rw [← hr]
    exact decodeWords_encodeWords col _ hw

theorem encodeMatrix_size (tc tc' : Toolchain) (t : MatrixType) (v : List (List Nat))
    (h : IsValue t v) : (encodeMatrix tc t v).length = sizeOf tc' t := by
  rw [encodeMatrix_length tc t v (fun c hc => (h.2 c hc).1), h.1, sizeOf, columnBytes_eq]

theorem decodeMatrix_encodeMatrix_value (tcW tcR : Toolchain) (t : MatrixType)
    (v : List (List Nat)) (h : IsValue t v) :
    decodeMatrix tcR t t.columns (encodeMatrix tcW t v) = v := by
  have := decodeMatrix_encodeMatrix tcW tcR t v [] h.2
  rwa [List.append_nil, h.1] at this


theorem alignOf_eq (tc : Toolchain) (t : MatrixType) : alignOf tc t = 16 := by
  cases tc <;> rfl

theorem sizeOf_eq (tc : Toolchain) (t : MatrixType) : sizeOf tc t = t.columns * 16 := by
  rw [sizeOf, columnBytes_eq]

theorem layoutFrom_toolchain (tc tc' : Toolchain) (pos : Nat) (fs : List Field) :
    layoutFrom tc pos fs = layoutFrom tc' pos fs := by
  induction fs generalizing pos with
  | nil => rfl
  | cons f fs ih => simp only [layoutFrom, alignOf_eq, sizeOf_eq, ih]

theorem endFrom_toolchain (tc tc' : Toolchain) (pos : Nat) (fs : List Field) :
    endFrom tc pos fs = endFrom tc' pos fs := by
  induction fs generalizing pos with
  | nil => rfl
  | cons f fs ih => simp only [endFrom, alignOf_eq, sizeOf_eq, ih]

theorem offsets_toolchain (tc tc' : Toolchain) (S : StructDecl) :
    S.offsets tc = S.offsets tc' :=
  layoutFrom_toolchain tc tc' 0 S.fields

theorem byteSize_toolchain (tc tc' : Toolchain) (S : StructDecl) :
    S.byteSize tc = S.byteSize tc' := by
  have ha : S.alignment tc = S.alignment tc' := by
    simp only [StructDecl.alignment, alignOf_eq]
  rw [StructDecl.byteSize, StructDecl.byteSize, ha, endFrom_toolchain tc tc']

theorem offsets_table (tc : Toolchain) :
    ObjectTransforms.offsets tc = [0, 64, 112, 176, 240] ∧
    SkyboxTransforms.offsets tc = [0] ∧
    PerFrameConstants.offsets tc = [0, 64, 128, 192] := by
  rw [offsets_toolchain tc .device, offsets_toolchain tc .device, offsets_toolchain tc .device]
  decide

theorem byteSize_table (tc : Toolchain) :
    ObjectTransforms.byteSize tc = 304 ∧
    SkyboxTransforms.byteSize tc = 64 ∧
    PerFrameConstants.byteSize tc = 256 := by
  rw [byteSize_toolchain tc .device, byteSize_toolchain tc .device, byteSize_toolchain tc .device]
  decide

theorem field_range (tc : Toolchain) (S : StructDecl) (hS : S ∈ allStructs) (i : Nat)
    (f : Field) (hf : S.fields[i]? = some f) :
    ∃ off, (S.offsets tc)[i]? = some off ∧ off + sizeOf tc f.type ≤ S.byteSize tc := by
  obtain ⟨o1, o2, o3⟩ := offsets_table tc
  obtain ⟨b1, b2, b3⟩ := byteSize_table tc
  simp only [allStructs, List.mem_cons, List.mem_singleton, List.mem_nil_iff, or_false] at hS
  rcases hS with rfl | rfl | rfl
  · rw [o1, b1]
    rcases i with _ | _ | _ | _ | _ | i <;>
      simp [ObjectTransforms] at hf <;> subst hf <;>
      simp [sizeOf_eq, MatrixType.columns]
  · rw [o2, b2]
    rcases i with _ | i
    · simp [SkyboxTransforms] at hf
      subst hf
      simp [sizeOf_eq, MatrixType.columns]
    · simp [SkyboxTransforms] at hf
  · rw [o3, b3]
    rcases i with _ | _ | _ | _ | i <;>
      simp [PerFrameConstants] at hf <;> subst hf <;>
      simp [sizeOf_eq, MatrixType.columns]

theorem field_ranges_disjoint (tc : Toolchain) (S : StructDecl) (hS : S ∈ allStructs)
    (i j : Nat) (f g : Field) (hf : S.fields[i]? = some f) (hg : S.fields[j]? = some g)
    (hij : i ≠ j) (oi oj : Nat) (hoi : (S.offsets tc)[i]? = some oi)
    (hoj : (S.offsets tc)[j]? = some oj) :
    oj + sizeOf tc g.type ≤ oi ∨ oi + sizeOf tc f.type ≤ oj := by
  obtain ⟨o1, o2, o3⟩ := offsets_table tc
  simp only [allStructs, List.mem_cons, List.mem_singleton, List.mem_nil_iff, or_false] at hS
  rcases hS with rfl | rfl | rfl
  · rw [o1] at hoi hoj
    rcases i with _ | _ | _ | _ | _ | i <;>
      simp [ObjectTransforms] at hf <;> subst hf <;>
      simp at hoi <;> subst hoi <;>
      rcases j with _ | _ | _ | _ | _ | j <;>
      simp [ObjectTransforms] at hg <;> subst hg <;>
      simp at hoj <;> subst hoj <;>
      simp [sizeOf_eq, MatrixType.columns] at hij ⊢
  · rcases i with _ | i
    · rcases j with _ | j
      · exact absurd rfl hij
      · simp [SkyboxTransforms] at hg
    · simp [SkyboxTransforms] at hf
  · rw [o3] at hoi hoj
    rcases i with _ | _ | _ | _ | i <;>
      simp [PerFrameConstants] at hf <;> subst hf <;>
      simp at hoi <;> subst hoi <;>
      rcases j with _ | _ | _ | _ | j <;>
      simp [PerFrameConstants] at hg <;> subst hg <;>
      simp at hoj <;> subst hoj <;>
      simp [sizeOf_eq, MatrixType.columns] at hij ⊢


/-! ## Enumerations: the claims -/

theorem enumValue_toolchain (tc : Toolchain) (E : EnumDecl) (hE : E ∈ allEnums)
    (e : Enumerator) (he : e ∈ E.members) : enumValue tc e = e.value := by
  simp only [allEnums, List.mem_cons, List.mem_singleton, List.mem_nil_iff, or_false] at hE
  rcases tc with arch | _
  · cases arch <;> rcases hE with rfl | rfl | rfl | rfl | rfl <;> revert e <;> decide
  · rcases hE with rfl | rfl | rfl | rfl | rfl <;> revert e <;> decide

theorem values_toolchain (tc : Toolchain) (E : EnumDecl) (hE : E ∈ allEnums) :
    E.values tc = E.members.map (fun e => e.value) := by
  unfold EnumDecl.values
  exact List.map_congr_left (fun e he => enumValue_toolchain tc E hE e he)

/-- C1: under every toolchain the values of the members of each of the five enumerations
are pairwise distinct, and an integer is one of them exactly when it lies in
`0, 1, ..., k-1`, where `k` is the number of members. -/
theorem enum_values_contiguous_from_zero (tc : Toolchain) (E : EnumDecl)
    (hE : E ∈ allEnums) :
    (E.values tc).Nodup ∧
      ∀ v : Int, v ∈ E.values tc ↔ 0 ≤ v ∧ v < E.members.length := by
  rw [values_toolchain tc E hE]
  simp only [allEnums, List.mem_cons, List.mem_singleton, List.mem_nil_iff, or_false] at hE
  rcases hE with rfl | rfl | rfl | rfl | rfl
  all_goals
    refine ⟨by decide, fun v => ?_⟩
    simp [BufferIndex, VertexAttributeVNT, VertexAttributeVT, VertexAttributeVN, TextureIndex]
    omega

/-- C1, at the buffer-slot enumeration: its values under the device toolchain are
distinct and are exactly 0, 1 and 2. -/
theorem enum_values_contiguous_from_zero_witness :
    BufferIndex ∈ allEnums ∧ BufferIndex.members.length = 3 ∧
      (BufferIndex.values .device).Nodup ∧
      ∀ v : Int, v ∈ BufferIndex.values .device ↔ 0 ≤ v ∧ v < BufferIndex.members.length :=
  ⟨by decide, rfl, enum_values_contiguous_from_zero .device BufferIndex (by decide)⟩

/-- C2: every named constant of the five enumerations has the same value under the
device definition (`NSInteger` is `metal::int32_t`) as under the host definition
(Foundation's `NSInteger`, on either host architecture); the value is the declared one
and lies in the range of a signed 32-bit integer. -/
theorem enum_constant_same_on_host_and_device (arch : HostArch) (E : EnumDecl)
    (hE : E ∈ allEnums) (e : Enumerator) (he : e ∈ E.members) :
    enumValue .device e = enumValue (.host arch) e ∧
      enumValue .device e = e.value ∧
      -2147483648 ≤ e.value ∧ e.value ≤ 2147483647 := by
  refine ⟨?_, enumValue_toolchain .device E hE e he, ?_⟩
  · rw [enumValue_toolchain .device E hE e he, enumValue_toolchain (.host arch) E hE e he]
  · simp only [allEnums, List.mem_cons, List.mem_singleton, List.mem_nil_iff, or_false] at hE
    rcases hE with rfl | rfl | rfl | rfl | rfl <;> revert e <;> decide

/-- C2, at `BufferIndexPerFrameConstants`: 2 on the device and on a 64-bit host. -/
theorem enum_constant_same_on_host_and_device_witness :
    BufferIndex ∈ allEnums ∧
      (⟨"BufferIndexPerFrameConstants", 2⟩ : Enumerator) ∈ BufferIndex.members ∧
      enumValue .device ⟨"BufferIndexPerFrameConstants", 2⟩ =
        enumValue (.host .lp64) ⟨"BufferIndexPerFrameConstants", 2⟩ ∧
      enumValue .device ⟨"BufferIndexPerFrameConstants", 2⟩ = 2 ∧
      (-2147483648 : Int) ≤ 2 ∧ (2 : Int) ≤ 2147483647 :=
  ⟨by decide, by decide,
    enum_constant_same_on_host_and_device .lp64 BufferIndex (by decide)
      ⟨"BufferIndexPerFrameConstants", 2⟩ (by decide)⟩

/-- C5: under every toolchain the buffer-slot constants are `BufferIndexMeshPositions = 0`,
`BufferIndexLocalUniforms = 1` and `BufferIndexPerFrameConstants = 2`, and the texture
enumeration has the single constant `TextureIndexColor = 0`. -/
theorem buffer_and_texture_slot_values (tc : Toolchain) :
    BufferIndex.constant tc "BufferIndexMeshPositions" = some 0 ∧
      BufferIndex.constant tc "BufferIndexLocalUniforms" = some 1 ∧
      BufferIndex.constant tc "BufferIndexPerFrameConstants" = some 2 ∧
      TextureIndex.members.map (fun e => e.name) = ["TextureIndexColor"] ∧
      TextureIndex.constant tc "TextureIndexColor" = some 0 := by
  rcases tc with arch | _
  · cases arch <;> decide
  · decide

theorem slotOf_some (tc : Toolchain) (E : EnumDecl) (k : String) (s : Int)
    (h : E.slotOf tc k = some s) :
    ∃ e ∈ E.members, attributeKind E e = k ∧ enumValue tc e = s := by
  unfold EnumDecl.slotOf at h
  cases hfind : E.members.find? (fun e => attributeKind E e == k) with
  | none => rw [hfind] at h; cases h
  | some e =>
    rw [hfind] at h
    refine ⟨e, List.mem_of_find?_eq_some hfind, ?_, by simpa using h⟩
    simpa using List.find?_some hfind

theorem shared_kind_members (tc : Toolchain) :
    ∀ E₁ ∈ vertexAttributeEnums, ∀ E₂ ∈ vertexAttributeEnums,
      ∀ e₁ ∈ E₁.members, ∀ e₂ ∈ E₂.members,
        attributeKind E₁ e₁ = attributeKind E₂ e₂ → attributeKind E₁ e₁ ≠ "Texcoord" →
          enumValue tc e₁ = enumValue tc e₂ := by
  rcases tc with arch | _
  · cases arch <;> decide
  · decide

/-- C7, as stated, fails: the attribute kind `Texcoord` is in two variants and has slot 2
in `VertexAttributeVNT` but slot 1 in `VertexAttributeVT`, so it is not true that every
kind shared by several variants has one slot number. -/
theorem texcoord_slot_differs_between_variants :
    VertexAttributeVNT.slotOf .device "Texcoord" = some 2 ∧
      VertexAttributeVT.slotOf .device "Texcoord" = some 1 ∧
      ¬ (∀ (tc : Toolchain) (E₁ E₂ : EnumDecl) (k : String) (s₁ s₂ : Int),
          E₁ ∈ vertexAttributeEnums → E₂ ∈ vertexAttributeEnums →
          E₁.slotOf tc k = some s₁ → E₂.slotOf tc k = some s₂ → s₁ = s₂) := by
  refine ⟨by decide, by decide, fun h => ?_⟩
  have := h .device VertexAttributeVNT VertexAttributeVT "Texcoord" 2 1
    (by decide) (by decide) (by decide) (by decide)
  exact absurd this (by decide)

/-- C7, amended: an attribute kind other than `Texcoord` (so `Position` or `Normal`) has
the same slot number in every vertex-attribute variant that contains it; `Texcoord` is
slot 2 in `VertexAttributeVNT` and slot 1 in `VertexAttributeVT`. -/
theorem shared_kind_same_slot_except_texcoord (tc : Toolchain) (E₁ E₂ : EnumDecl)
    (h₁ : E₁ ∈ vertexAttributeEnums) (h₂ : E₂ ∈ vertexAttributeEnums) (k : String)
    (hk : k ≠ "Texcoord") (s₁ s₂ : Int) (hs₁ : E₁.slotOf tc k = some s₁)
    (hs₂ : E₂.slotOf tc k = some s₂) :
    s₁ = s₂ ∧ VertexAttributeVNT.slotOf tc "Texcoord" = some 2 ∧
      VertexAttributeVT.slotOf tc "Texcoord" = some 1 := by
  obtain ⟨e₁, he₁, hk₁, rfl⟩ := slotOf_some tc E₁ k s₁ hs₁
  obtain ⟨e₂, he₂, hk₂, rfl⟩ := slotOf_some tc E₂ k s₂ hs₂
  refine ⟨shared_kind_members tc E₁ h₁ E₂ h₂ e₁ he₁ e₂ he₂ (hk₁.trans hk₂.symm)
    (by rw [hk₁]; exact hk), ?_⟩
  rcases tc with arch | _
  · cases arch <;> decide
  · decide

/-- C7, amended, at `Normal`: slot 1 in `VertexAttributeVNT` and in `VertexAttributeVN`. -/
theorem shared_kind_same_slot_except_texcoord_witness :
    VertexAttributeVNT ∈ vertexAttributeEnums ∧ VertexAttributeVN ∈ vertexAttributeEnums ∧
      "Normal" ≠ "Texcoord" ∧
      VertexAttributeVNT.slotOf .device "Normal" = some 1 ∧
      VertexAttributeVN.slotOf .device "Normal" = some 1 ∧ (1 : Int) = 1 ∧
      VertexAttributeVNT.slotOf .device "Texcoord" = some 2 ∧
      VertexAttributeVT.slotOf .device "Texcoord" = some 1 :=
  ⟨by decide, by decide, by decide, by decide, by decide,
    shared_kind_same_slot_except_texcoord .device VertexAttributeVNT VertexAttributeVN
      (by decide) (by decide) "Normal" (by decide) 1 1 (by decide) (by decide)⟩

/-! ## Structs: the claims -/

/-- C3: under every toolchain, with `matrix_float4x4` of 64 bytes and `matrix_float3x3` of
48 bytes, both 16-byte aligned, the size the C layout rule gives each struct is the plain
sum of its field sizes and every field sits right after the one before it (no padding
between fields or at the end): `ObjectTransforms` is 64 + 48 + 64 + 64 + 64 = 304 bytes,
`SkyboxTransforms` 64 bytes and `PerFrameConstants` 4 * 64 = 256 bytes. -/
theorem struct_size_is_sum_of_field_sizes (tc : Toolchain) :
    (sizeOf tc .matrix_float4x4 = 64 ∧ sizeOf tc .matrix_float3x3 = 48 ∧
      alignOf tc .matrix_float4x4 = 16 ∧ alignOf tc .matrix_float3x3 = 16) ∧
    (ObjectTransforms.byteSize tc = ObjectTransforms.fieldSizeSum tc ∧
      ObjectTransforms.offsets tc = packedFrom tc 0 ObjectTransforms.fields ∧
      ObjectTransforms.fieldSizeSum tc = 64 + 48 + 64 + 64 + 64 ∧
      ObjectTransforms.byteSize tc = 304) ∧
    (SkyboxTransforms.byteSize tc = SkyboxTransforms.fieldSizeSum tc ∧
      SkyboxTransforms.offsets tc = packedFrom tc 0 SkyboxTransforms.fields ∧
      SkyboxTransforms.byteSize tc = 64) ∧
    (PerFrameConstants.byteSize tc = PerFrameConstants.fieldSizeSum tc ∧
      PerFrameConstants.offsets tc = packedFrom tc 0 PerFrameConstants.fields ∧
      PerFrameConstants.fieldSizeSum tc = 4 * 64 ∧
      PerFrameConstants.byteSize tc = 256) := by
  rcases tc with arch | _
  · cases arch <;> decide
  · decide

/-- C6: under every toolchain the fields of `ObjectTransforms` are at offsets 0, 64, 112,
176, 240, those of `PerFrameConstants` at 0, 64, 128, 192 and the field of
`SkyboxTransforms` at 0; in each struct every offset is a multiple of 16 and the offsets
strictly increase in declaration order. -/
theorem field_offsets_aligned_and_increasing (tc : Toolchain) :
    (ObjectTransforms.offsetOf tc "modelViewMatrix" = some 0 ∧
      ObjectTransforms.offsetOf tc "normalMatrix" = some 64 ∧
      ObjectTransforms.offsetOf tc "pad1" = some 112 ∧
      ObjectTransforms.offsetOf tc "pad2" = some 176 ∧
      ObjectTransforms.offsetOf tc "pad3" = some 240) ∧
    (PerFrameConstants.offsetOf tc "projectionMatrix" = some 0 ∧
      PerFrameConstants.offsetOf tc "pad1" = some 64 ∧
      PerFrameConstants.offsetOf tc "pad2" = some 128 ∧
      PerFrameConstants.offsetOf tc "pad3" = some 192) ∧
    SkyboxTransforms.offsetOf tc "modelViewProjectionMatrix" = some 0 ∧
    (ObjectTransforms.offsets tc = [0, 64, 112, 176, 240] ∧
      PerFrameConstants.offsets tc = [0, 64, 128, 192] ∧
      SkyboxTransforms.offsets tc = [0]) ∧
    ((ObjectTransforms.offsets tc).all (fun o => o % 16 == 0) = true ∧
      (PerFrameConstants.offsets tc).all (fun o => o % 16 == 0) = true ∧
      (SkyboxTransforms.offsets tc).all (fun o => o % 16 == 0) = true) ∧
    ((ObjectTransforms.offsets tc).Pairwise (fun a b => a < b) ∧
      (PerFrameConstants.offsets tc).Pairwise (fun a b => a < b) ∧
      (SkyboxTransforms.offsets tc).Pairwise (fun a b => a < b)) := by
  rcases tc with arch | _
  · cases arch <;> decide
  · decide

theorem writeField_eq (tc : Toolchain) (S : StructDecl) (i : Nat) (f : Field) (off : Nat)
    (hf : S.fields[i]? = some f) (ho : (S.offsets tc)[i]? = some off)
    (v : List (List Nat)) (buf : Buffer) (base : Nat) :
    writeField tc S i v buf base = writeBytes buf (base + off) (encodeMatrix tc f.type v) := by
  simp only [writeField, hf, ho]

theorem readFieldBytes_eq (tc : Toolchain) (S : StructDecl) (i : Nat) (f : Field) (off : Nat)
    (hf : S.fields[i]? = some f) (ho : (S.offsets tc)[i]? = some off)
    (buf : Buffer) (base : Nat) :
    readFieldBytes tc S i buf base = readBytes buf (base + off) (sizeOf tc f.type) := by
  simp only [readFieldBytes, hf, ho]

theorem readField_eq (tc : Toolchain) (S : StructDecl) (i : Nat) (f : Field)
    (hf : S.fields[i]? = some f) (buf : Buffer) (base : Nat) :
    readField tc S i buf base =
      (readFieldBytes tc S i buf base).map (decodeMatrix tc f.type f.type.columns) := by
  simp only [readField, hf]

/-- C4: for every struct of the header, every field `f` (number `i`) of it and every
value `v` of the type of `f`, on a buffer that holds an instance of the struct at address
`base`: the host write of `v` into the field succeeds, host and device give the field the
same offset, and the device read of the field at the same base address returns the very
bytes written and decodes them to `v`. -/
theorem host_write_device_read_roundtrip (arch : HostArch) (S : StructDecl)
    (hS : S ∈ allStructs) (i : Nat) (f : Field) (hf : S.fields[i]? = some f)
    (v : List (List Nat)) (hv : IsValue f.type v) (buf : Buffer) (base : Nat)
    (hfit : base + S.byteSize (.host arch) ≤ buf.length) :
    ∃ buf', writeField (.host arch) S i v buf base = some buf' ∧
      (S.offsets (.host arch))[i]? = (S.offsets .device)[i]? ∧
      readFieldBytes .device S i buf' base = some (encodeMatrix (.host arch) f.type v) ∧
      readField .device S i buf' base = some v := by
  obtain ⟨off, ho, hin⟩ := field_range (.host arch) S hS i f hf
  have ho' : (S.offsets .device)[i]? = some off := by
    rw [offsets_toolchain .device (.host arch)]; exact ho
  have hlen : (encodeMatrix (.host arch) f.type v).length = sizeOf (.host arch) f.type :=
    encodeMatrix_size _ _ _ _ hv
  have hlen' : (encodeMatrix (.host arch) f.type v).length = sizeOf .device f.type :=
    encodeMatrix_size _ _ _ _ hv
  obtain ⟨buf', hw, hr⟩ := readBytes_writeBytes_same buf (base + off)
    (encodeMatrix (.host arch) f.type v) (by omega)
  have hb : readFieldBytes .device S i buf' base =
      some (encodeMatrix (.host arch) f.type v) := by
    rw [readFieldBytes_eq .device S i f off hf ho', ← hlen']; exact hr
  refine ⟨buf', ?_, ?_, hb, ?_⟩
  · rw [writeField_eq (.host arch) S i f off hf ho]; exact hw
  · rw [ho, ho']
  · rw [readField_eq .device S i f hf, hb, Option.map_some',
      decodeMatrix_encodeMatrix_value (.host arch) .device f.type v hv]

/-- C4, at the known projection matrix: written by a 64-bit host into
`PerFrameConstants.projectionMatrix` of a 256-byte buffer, it is read back bit-identical
through the device layout. -/
theorem host_write_device_read_roundtrip_witness :
    PerFrameConstants ∈ allStructs ∧
      PerFrameConstants.fields[0]? = some ⟨"projectionMatrix", .matrix_float4x4⟩ ∧
      IsValue .matrix_float4x4 knownProjection ∧
      0 + PerFrameConstants.byteSize (.host .lp64) ≤ (List.replicate 256 0).length ∧
      ∃ buf', writeField (.host .lp64) PerFrameConstants 0 knownProjection
          (List.replicate 256 0) 0 = some buf' ∧
        (PerFrameConstants.offsets (.host .lp64))[0]? =
          (PerFrameConstants.offsets .device)[0]? ∧
        readFieldBytes .device PerFrameConstants 0 buf' 0 =
          some (encodeMatrix (.host .lp64) .matrix_float4x4 knownProjection) ∧
        readField .device PerFrameConstants 0 buf' 0 = some knownProjection :=
  ⟨by decide, rfl, by decide, by rw [List.length_replicate]; decide,
    host_write_device_read_roundtrip .lp64 PerFrameConstants (by decide) 0
      ⟨"projectionMatrix", .matrix_float4x4⟩ rfl knownProjection (by decide)
      (List.replicate 256 0) 0 (by rw [List.length_replicate]; decide)⟩

/-- C8: in every struct of the header two different fields (numbers `i` and `j`) occupy
disjoint byte ranges that lie inside `[0, sizeof struct)`; so on a buffer holding an
instance at address `base`, writing a value `v` into field `i` succeeds and leaves the
bytes of field `j`, and the matrix read back from it, as they were. -/
theorem write_field_leaves_other_fields (tc : Toolchain) (S : StructDecl)
    (hS : S ∈ allStructs) (i j : Nat) (f g : Field) (hf : S.fields[i]? = some f)
    (hg : S.fields[j]? = some g) (hij : i ≠ j) (v : List (List Nat))
    (hv : IsValue f.type v) (buf : Buffer) (base : Nat)
    (hfit : base + S.byteSize tc ≤ buf.length) :
    ∃ oi oj buf' bytes,
      (S.offsets tc)[i]? = some oi ∧ (S.offsets tc)[j]? = some oj ∧
      (oi + sizeOf tc f.type ≤ oj ∨ oj + sizeOf tc g.type ≤ oi) ∧
      oi + sizeOf tc f.type ≤ S.byteSize tc ∧ oj + sizeOf tc g.type ≤ S.byteSize tc ∧
      writeField tc S i v buf base = some buf' ∧
      readFieldBytes tc S j buf base = some bytes ∧
      readFieldBytes tc S j buf' base = some bytes ∧
      readField tc S j buf' base = readField tc S j buf base := by
  obtain ⟨oi, hoi, hini⟩ := field_range tc S hS i f hf
  obtain ⟨oj, hoj, hinj⟩ := field_range tc S hS j g hg
  have hdis := field_ranges_disjoint tc S hS i j f g hf hg hij oi oj hoi hoj
  have hlen : (encodeMatrix tc f.type v).length = sizeOf tc f.type :=
    encodeMatrix_size _ _ _ _ hv
  obtain ⟨buf', hw, -⟩ := readBytes_writeBytes_same buf (base + oi)
    (encodeMatrix tc f.type v) (by omega)
  have hsame : readBytes buf' (base + oj) (sizeOf tc g.type) =
      readBytes buf (base + oj) (sizeOf tc g.type) :=
    readBytes_writeBytes_disjoint buf (base + oi) (encodeMatrix tc f.type v) buf'
      (base + oj) (sizeOf tc g.type) hw (by omega)
  have hb : readFieldBytes tc S j buf' base = readFieldBytes tc S j buf base := by
    rw [readFieldBytes_eq tc S j g oj hg hoj, readFieldBytes_eq tc S j g oj hg hoj, hsame]
  have hsome : readFieldBytes tc S j buf base =
      some ((buf.drop (base + oj)).take (sizeOf tc g.type)) := by
    rw [readFieldBytes_eq tc S j g oj hg hoj, readBytes, if_pos (by omega)]
  refine ⟨oi, oj, buf', _, hoi, hoj, hdis.symm, hini, hinj, ?_, hsome, hb.trans hsome, ?_⟩
  · rw [writeField_eq tc S i f oi hf hoi]; exact hw
  · rw [readField_eq tc S j g hg, readField_eq tc S j g hg, hb]

/-- C8, at `ObjectTransforms`: writing the padding field `pad1` (number 2) of an instance
in a 304-byte buffer leaves `normalMatrix` (number 1) as it was. -/
theorem write_field_leaves_other_fields_witness :
    ObjectTransforms ∈ allStructs ∧
      ObjectTransforms.fields[2]? = some ⟨"pad1", .matrix_float4x4⟩ ∧
      ObjectTransforms.fields[1]? = some ⟨"normalMatrix", .matrix_float3x3⟩ ∧
      2 ≠ 1 ∧ IsValue .matrix_float4x4 knownProjection ∧
      0 + ObjectTransforms.byteSize .device ≤ (List.replicate 304 7).length ∧
      ∃ oi oj buf' bytes,
        (ObjectTransforms.offsets .device)[2]? = some oi ∧
        (ObjectTransforms.offsets .device)[1]? = some oj ∧
        (oi + sizeOf .device .matrix_float4x4 ≤ oj ∨
          oj + sizeOf .device .matrix_float3x3 ≤ oi) ∧
        oi + sizeOf .device .matrix_float4x4 ≤ ObjectTransforms.byteSize .device ∧
        oj + sizeOf .device .matrix_float3x3 ≤ ObjectTransforms.byteSize .device ∧
        writeField .device ObjectTransforms 2 knownProjection (List.replicate 304 7) 0 =
          some buf' ∧
        readFieldBytes .device ObjectTransforms 1 (List.replicate 304 7) 0 = some bytes ∧
        readFieldBytes .device ObjectTransforms 1 buf' 0 = some bytes ∧
        readField .device ObjectTransforms 1 buf' 0 =
          readField .device ObjectTransforms 1 (List.replicate 304 7) 0 :=
  ⟨by decide, rfl, rfl, by decide, by decide, by rw [List.length_replicate]; decide,
    write_field_leaves_other_fields .device ObjectTransforms (by decide) 2 1
      ⟨"pad1", .matrix_float4x4⟩ ⟨"normalMatrix", .matrix_float3x3⟩ rfl rfl (by decide)
      knownProjection (by decide) (List.replicate 304 7) 0
      (by rw [List.length_replicate]; decide)⟩

end ShaderTypes
